import Mathlib

/-! KanbanBoard: board state, pagination and search.

A shallow embedding of `src/components/KanbanBoard.jsx` and `src/lib/api.ts`.
React state is passed explicitly; the react-query cache is a map from a column
id to the infinite-query data stored under `["tasks", colId, search, pageLimit]`
for the current `search`; repository calls are returned as lists of requests.
-/

namespace KanbanBoard

/-! ## JavaScript string built-ins used by the component -/

/-- White space and line terminators removed by `String.prototype.trim`. -/
def isJsWhitespace (c : Char) : Bool :=
  let n := c.toNat
  n = 0x09 || n = 0x0A || n = 0x0B || n = 0x0C || n = 0x0D || n = 0x20 ||
  n = 0xA0 || n = 0x1680 || (0x2000 ≤ n && n ≤ 0x200A) || n = 0x2028 ||
  n = 0x2029 || n = 0x202F || n = 0x205F || n = 0x3000 || n = 0xFEFF

/-- Characters of `s.trim()`: white space dropped at both ends. -/
def trimChars (cs : List Char) : List Char :=
  ((cs.dropWhile isJsWhitespace).reverse.dropWhile isJsWhitespace).reverse

/-- The method `s.trim()`. -/
def trim (s : String) : String := ⟨trimChars s.data⟩

/-- Lower-casing of one character, restricted to ASCII: the letters `A`–`Z` are
mapped and every other character is kept. `String.prototype.toLowerCase` applies
the Unicode case mapping, so the model agrees with it on ASCII text only; the
general theorems below hold for any lower-casing and every evaluated input is
ASCII. -/
def lowerChar (c : Char) : Char :=
  if 65 ≤ c.toNat ∧ c.toNat ≤ 90 then Char.ofNat (c.toNat + 32) else c

/-- The method `s.toLowerCase()`, on ASCII text (see `lowerChar`). -/
def toLowerCase (s : String) : String := ⟨s.data.map lowerChar⟩

/-- Substring test on character lists: `needle` starts at some position of `hay`. -/
def includesChars (hay needle : List Char) : Bool :=
  hay.tails.any (fun t => needle.isPrefixOf t)

/-- The method `hay.includes(needle)`. -/
def includes (hay needle : String) : Bool := includesChars hay.data needle.data

/-- Truthiness of a string: every string but `""` is truthy. -/
def truthy (s : String) : Bool := !s.data.isEmpty

/-! ## Data model -/

/-- A task as received from the repository (`Task` of `api.ts`); `title` and
`description` are read with `?.`, so either may be missing. -/
structure Task where
  id : String
  title : Option String
  description : Option String
  column : String
  deriving DecidableEq, Repr

/-- A board column. -/
structure Column where
  id : String
  title : String
  deriving DecidableEq, Repr

/-- The four columns, in rendering order. -/
def columns : List Column :=
  [ ⟨"backlog", "Backlog"⟩, ⟨"in_progress", "In Progress"⟩,
    ⟨"review", "Review"⟩, ⟨"done", "Done"⟩ ]

/-- Page size of every column query. -/
def pageLimit : Nat := 10

/-- A page: the tasks returned by one fetch. -/
abbrev Page := List Task

/-- Data of an infinite query: the loaded pages and their page parameters. -/
structure InfiniteData where
  pages : List Page
  pageParams : List (Option Nat)
  deriving DecidableEq, Repr

/-- The query cache for the current search: column id to `query.data`, with
`none` for a query that has no data (still loading, or failed). -/
abbrev Cache := String → Option InfiniteData

/-- The list `[backlogQuery, inProgressQuery, reviewQuery, doneQuery]` of `query.data`. -/
def columnQueries (cache : Cache) : List (Option InfiniteData) :=
  columns.map (fun c => cache c.id)

/-- The expression `xs.slice(start, stop)` for non-negative indices. -/
def slice {α : Type} (xs : List α) (start stop : Nat) : List α :=
  (xs.take stop).drop start

/-- The expression `(data?.pages || []).flat()`. -/
def loadedTasks (d : Option InfiniteData) : List Task :=
  match d with
  | some x => x.pages.flatten
  | none => []

/-! ## Drag and drop: `onDragEnd` -/

/-- A position of the drag library: a droppable (column) id and an index. -/
structure DraggableLocation where
  droppableId : String
  index : Nat
  deriving DecidableEq, Repr

/-- The `result` object handed to `onDragEnd`. -/
structure DropResult where
  draggableId : String
  source : DraggableLocation
  destination : Option DraggableLocation
  deriving DecidableEq, Repr

/-- The `updates` object of a repository update (`Partial<Task>`). -/
structure TaskPatch where
  title : Option String
  description : Option String
  column : Option String
  deriving DecidableEq, Repr

/-- One call `mutations.update.mutate({ id, updates })`. -/
structure UpdateCall where
  id : String
  updates : TaskPatch
  deriving DecidableEq, Repr

/-- The local function `getTasksForCol` of `onDragEnd`. -/
def getTasksForCol (cache : Cache) (colId : String) : List Task :=
  match columns.findIdx? (fun c => c.id == colId) with
  | none => []
  | some idx =>
    match (columnQueries cache)[idx]? with
    | some (some d) => d.pages.flatten
    | _ => []

/-- The call `queryClient.setQueryData(["tasks", colId, search, pageLimit], updater)`. -/
def setQueryData (cache : Cache) (colId : String)
    (updater : Option InfiniteData → Option InfiniteData) : Cache :=
  fun k => if k = colId then updater (cache colId) else cache k

/-- Updater of the source column: the dragged task is filtered out of every
page and the pages left empty are dropped. -/
def sourceUpdater (draggableId : String) (old : Option InfiniteData) : Option InfiniteData :=
  match old with
  | none => none
  | some o =>
    let newPages :=
      (o.pages.map (fun page => page.filter (fun task => task.id != draggableId))).filter
        (fun page => decide (page.length > 0))
    some { o with pages := if newPages.length > 0 then newPages else [[]] }

/-- The loop `for (let i = 0; i < updatedTasks.length; i += pageLimit)
newPages.push(updatedTasks.slice(i, i + pageLimit))`, started at `i` with the
pages pushed so far. The first argument bounds the number of iterations. -/
def repaginateLoop (updatedTasks : List Task) : Nat → Nat → List Page → List Page
  | 0, _, newPages => newPages
  | fuel + 1, i, newPages =>
    if i < updatedTasks.length then
      repaginateLoop updatedTasks fuel (i + pageLimit)
        (newPages ++ [slice updatedTasks i (i + pageLimit)])
    else newPages

/-- Re-pagination of the destination updater: the loop from `i = 0`, then
`newPages.length > 0 ? newPages : [[]]`. The loop runs at most
`updatedTasks.length` times, so the bound given never cuts it short. -/
def repaginate (updatedTasks : List Task) : List Page :=
  let newPages := repaginateLoop updatedTasks (updatedTasks.length + 1) 0 []
  if newPages.length > 0 then newPages else [[]]

/-- Updater of the destination column: the task is inserted at `index` of the
flattened pages, which are then re-paginated. -/
def destUpdater (index : Nat) (updatedTask : Task) (old : Option InfiniteData) :
    Option InfiniteData :=
  match old with
  | none => none
  | some o =>
    let allTasks := o.pages.flatten
    let updatedTasks := allTasks.take index ++ [updatedTask] ++ allTasks.drop index
    some { o with pages := repaginate updatedTasks }

/-- The handler `onDragEnd(result)`: the cache after the handler and the
repository updates it issued. The local `destItems` is computed by the handler
and never read, so it is left out. -/
def onDragEnd (cache : Cache) (result : DropResult) : Cache × List UpdateCall :=
  match result.destination with
  | none => (cache, [])
  | some destination =>
    let sourceCol := result.source.droppableId
    let destCol := destination.droppableId
    if sourceCol = destCol ∧ result.source.index = destination.index then (cache, [])
    else
      let sourceItems := getTasksForCol cache sourceCol
      match sourceItems.find? (fun t => t.id == result.draggableId) with
      | none => (cache, [])
      | some movedTask =>
        let updatedTask := { movedTask with column := destCol }
        let cache1 := setQueryData cache sourceCol (sourceUpdater result.draggableId)
        let cache2 := setQueryData cache1 destCol (destUpdater destination.index updatedTask)
        (cache2, [⟨result.draggableId, ⟨none, none, some destCol⟩⟩])

/-! ## Search results and visible tasks -/

/-- The sample tasks `initialTasks` of `store/kanbanStore.js`. -/
def initialTasks : List Task :=
  [ ⟨"1", some "Sample task 1", some "First task", "backlog"⟩,
    ⟨"2", some "Sample task 2", some "Second task", "in_progress"⟩ ]

/-- The state `searchResults`: the total and the per-column object, as its
entries in insertion order. -/
structure SearchResults where
  count : Nat
  columns : List (String × Nat)
  deriving DecidableEq, Repr

/-- The assignment `obj[key] = value` on an object kept as its list of entries. -/
def setKey (obj : List (String × Nat)) (key : String) (value : Nat) : List (String × Nat) :=
  if obj.any (fun e => e.1 == key) then
    obj.map (fun e => if e.1 == key then (key, value) else e)
  else obj ++ [(key, value)]

/-- The expression `s?.toLowerCase().includes(searchTerm)`, falsy on a missing `s`. -/
def fieldMatch (s : Option String) (searchTerm : String) : Bool :=
  match s with
  | some x => includes (toLowerCase x) searchTerm
  | none => false

/-- The filter callback of the search effect for column `colId`. -/
def searchFilter (searchTerm colId : String) (t : Task) : Bool :=
  let titleMatch := fieldMatch t.title searchTerm
  let descMatch := fieldMatch t.description searchTerm
  (titleMatch || descMatch) && t.column == colId

/-- The data of `columnQueries[i]`. -/
def queryData (cache : Cache) (i : Nat) : Option InfiniteData :=
  match (columnQueries cache)[i]? with
  | some d => d
  | none => none

/-- The search effect: the value passed to `setSearchResults`. -/
def computeSearchResults (search : String) (cache : Cache) : SearchResults :=
  let searchTerm := toLowerCase (trim search)
  if !truthy searchTerm then ⟨0, []⟩
  else
    columns.enum.foldl
      (fun acc ic =>
        let all := loadedTasks (queryData cache ic.1)
        let filtered := all.filter (searchFilter searchTerm ic.2.id)
        ⟨acc.count + filtered.length, setKey acc.columns ic.2.id filtered.length⟩)
      ⟨0, []⟩

/-- The list `items` rendered in column `col`, the `i`-th column. -/
def items (search : String) (cache : Cache) (i : Nat) (col : Column) : List Task :=
  let allItems := loadedTasks (queryData cache i)
  if truthy (trim search) then allItems.filter (fun t => t.column == col.id) else allItems

/-- The condition under which a card gets the highlight `boxShadow` and
`backgroundColor`: `search.trim() && (task.title?.toLowerCase().includes(
search.toLowerCase()) || task.description?.toLowerCase().includes(
search.toLowerCase()))`. -/
def highlighted (search : String) (task : Task) : Bool :=
  truthy (trim search) &&
    (fieldMatch task.title (toLowerCase search) ||
      fieldMatch task.description (toLowerCase search))

/-! ## Creating a task: `handleSaveNew` -/

/-- The state `form`. -/
structure Form where
  title : String
  description : String
  column : String
  deriving DecidableEq, Repr

/-- The state `formErrors`. -/
structure FormErrors where
  title : String
  deriving DecidableEq, Repr

/-- The React state read and written by `handleSaveNew`. -/
structure DialogState where
  form : Form
  openNew : Bool
  formErrors : FormErrors
  deriving DecidableEq, Repr

/-- Value of a digit in radix up to 36. -/
def digitValue (c : Char) : Option Nat :=
  let n := c.toNat
  if 48 ≤ n ∧ n ≤ 57 then some (n - 48)
  else if 97 ≤ n ∧ n ≤ 122 then some (n - 97 + 10)
  else if 65 ≤ n ∧ n ≤ 90 then some (n - 65 + 10)
  else none

/-- The longest prefix of digits of the radix, as their values. -/
def radixDigits (radix : Nat) : List Char → List Nat
  | [] => []
  | c :: cs =>
    match digitValue c with
    | some v => if v < radix then v :: radixDigits radix cs else []
    | none => []

/-- The call `parseInt(s)` without a radix: leading white space skipped, an
optional sign, an optional `0x` for radix 16, then the longest prefix of digits;
`none` stands for `NaN`. Numbers are exact integers (ids stay below `2^53`). -/
def parseInt (s : String) : Option Int :=
  let s1 := s.data.dropWhile isJsWhitespace
  let neg := s1.head? == some '-'
  let s2 := if s1.head? == some '-' || s1.head? == some '+' then s1.drop 1 else s1
  let hex := s2.take 2 == ['0', 'x'] || s2.take 2 == ['0', 'X']
  let radix := if hex then 16 else 10
  let s3 := if hex then s2.drop 2 else s2
  let ds := radixDigits radix s3
  if ds.isEmpty then none
  else
    let n : Nat := ds.foldl (fun acc d => acc * radix + d) 0
    some (if neg then - (n : Int) else (n : Int))

/-- The reducer of `allTasks.reduce(..., 0)` that keeps the highest id. -/
def maxIdStep (max : Int) (task : Task) : Int :=
  match parseInt task.id with
  | some taskId => if taskId > max then taskId else max
  | none => max

/-- The expression `String(n)` for an integer. -/
def jsString (n : Int) : String := toString n

/-- The list `allTasks` of `handleSaveNew`: for each column, the flattened pages
of `columnQueries.find((q) => q.data?.pages)`. -/
def allTasksForNewId (cache : Cache) : List Task :=
  (columns.map (fun _col =>
    match (columnQueries cache).find? (fun q => q.isSome) with
    | some (some d) => d.pages.flatten
    | _ => [])).flatten

/-- The handler `handleSaveNew()`: the state after the handler and the tasks
passed to `mutations.create.mutate`. -/
def handleSaveNew (st : DialogState) (cache : Cache) : DialogState × List Task :=
  if !truthy (trim st.form.title) then
    ({ st with formErrors := { st.formErrors with title := "Title is required" } }, [])
  else
    let allTasks := allTasksForNewId cache
    let maxId := allTasks.foldl maxIdStep 0
    let newTask : Task :=
      { id := jsString (maxId + 1)
        title := some (trim st.form.title)
        description := some (trim st.form.description)
        column := if truthy st.form.column then st.form.column else "backlog" }
    ({ form := ⟨"", "", "backlog"⟩, openNew := false, formErrors := ⟨""⟩ }, [newTask])

/-! ## Paging: `useColumnTasks`, `fetchTasks`, `hasMore` -/

/-- The argument object of `fetchTasks`. -/
structure FetchArgs where
  column : Option String
  q : Option String
  page : Option Nat
  limit : Option Nat
  deriving DecidableEq, Repr

/-- The `params` object of the GET request built by `fetchTasks`. -/
structure RequestParams where
  _page : Nat
  _limit : Nat
  _sort : String
  _order : String
  q : Option String
  column : Option String
  deriving DecidableEq, Repr

/-- The request parameters built by `fetchTasks(params)` of `lib/api.ts`. -/
def fetchTasks (params : FetchArgs) : RequestParams :=
  let page := params.page.getD 1
  let limit := params.limit.getD 10
  { _page := page, _limit := limit, _sort := "id", _order := "asc"
    q := match params.q with
      | some q => if truthy q && truthy (trim q) then some (trim q) else none
      | none => none
    column := match params.column with
      | some c => if truthy c then some c else none
      | none => none }

/-- The arguments the query function of `useColumnTasks(colId)` hands to
`fetchTasks`; `pageParam` defaults to 1. -/
def queryFnArgs (search colId : String) (pageParam : Option Nat) : FetchArgs :=
  let q := trim search
  { column := if truthy q then none else some colId
    q := some q
    page := some (pageParam.getD 1)
    limit := some pageLimit }

/-- The option `getNextPageParam`; `none` stands for `undefined`. -/
def getNextPageParam (lastPage : Page) (allPages : List Page) : Option Nat :=
  if lastPage.length < pageLimit then none else some (allPages.length + 1)

/-- The flag `hasMore` of a column. -/
def hasMore (data : Option InfiniteData) : Bool :=
  let lastLength : Option Nat :=
    match data with
    | some d => d.pages.getLast?.map List.length
    | none => none
  lastLength.getD 0 == pageLimit

/-- Modelled from the spec: the Task Repository `list` operation, which is not
part of the source. It serves the tasks `all` of one column, already in
ascending id order, in pages of `_limit` tasks, pages numbered from 1. -/
def repositoryList (all : List Task) (req : RequestParams) : Page :=
  slice all ((req._page - 1) * req._limit) (req._page * req._limit)

/-- One load of a column query with no search: the first fetch when nothing is
loaded, else the page named by `getNextPageParam`; `none` when there is no next
page. -/
def loadNextPage (all : List Task) (colId : String) (pages : List Page) :
    Option (List Page) :=
  match pages.getLast? with
  | none => some [repositoryList all (fetchTasks (queryFnArgs "" colId none))]
  | some lastPage =>
    match getNextPageParam lastPage pages with
    | none => none
    | some p => some (pages ++ [repositoryList all (fetchTasks (queryFnArgs "" colId (some p)))])

/-- Loading repeatedly until there is no next page; `none` when the bound on
the number of loads is reached first. -/
def loadAll (all : List Task) (colId : String) : Nat → List Page → Option (List Page)
  | 0, _ => none
  | fuel + 1, pages =>
    match loadNextPage all colId pages with
    | none => some pages
    | some pages1 => loadAll all colId fuel pages1

/-! ## Example inputs -/

/-- A cache in which only the backlog query has data: the first sample task. -/
def backlogOnlyCache : Cache := fun k =>
  if k = "backlog" then some ⟨[initialTasks.take 1], [none]⟩ else none

/-- A cache during a search: every column query holds both sample tasks, as
fetched without a column filter. -/
def searchCache : Cache := fun _ => some ⟨[initialTasks], [none]⟩

/-- A cache with the two sample tasks, each loaded in its own column, and two
empty loaded columns. -/
def sampleCache : Cache := fun k =>
  if k = "backlog" then some ⟨[initialTasks.take 1], [none]⟩
  else if k = "in_progress" then some ⟨[initialTasks.drop 1], [none]⟩
  else if k = "review" ∨ k = "done" then some ⟨[[]], [none]⟩
  else none

/-- Twenty-five tasks of the backlog, ids 1 to 25 in ascending order. -/
def backlog25 : List Task :=
  (List.range 25).map (fun n => ⟨toString (n + 1), some "Task", none, "backlog"⟩)

/-- The dialog state with a title typed in, the dialog open, no error shown. -/
def dialogWith (title : String) : DialogState := ⟨⟨title, "", "backlog"⟩, true, ⟨""⟩⟩

/-- Dragging the first sample task from the top of the backlog to the top of
the review column. -/
def dragToReview : DropResult := ⟨"1", ⟨"backlog", 0⟩, some ⟨"review", 0⟩⟩

/-- A cache whose backlog query holds twenty-five tasks in pages of 10, 10 and
5, next to a loaded, empty review column. -/
def pagedBacklogCache : Cache := fun k =>
  if k = "backlog" then
    some ⟨[backlog25.take 10, (backlog25.drop 10).take 10, backlog25.drop 20],
      [none, some 2, some 3]⟩
  else if k = "review" then some ⟨[[]], [none]⟩
  else none

/-! ## Lemmas on lists and pagination -/

theorem slice_length {α : Type} (xs : List α) (a b : Nat) :
    (slice xs a b).length = min b xs.length - a := by
  simp [slice]

theorem slice_add_flatten (T : List Task) (a n : Nat) :
    T.take a ++ slice T a (a + n) = T.take (a + n) := by
  unfold slice
  have h : T.take a = (T.take (a + n)).take a := by
    rw [List.take_take]; congr 1; omega
  rw [h, List.take_append_drop]

theorem pageLimit_eq : pageLimit = 10 := rfl

/-- The pages pushed by the loop from index `i`, in closed form. -/
theorem repaginateLoop_eq (T : List Task) :
    ∀ (fuel i : Nat) (acc : List Page), T.length - i < fuel →
      repaginateLoop T fuel i acc =
        acc ++ (List.range ((T.length - i + 9) / 10)).map
          (fun k => slice T (i + 10 * k) (i + 10 * k + 10)) := by
  intro fuel
  induction fuel with
  | zero => intro i acc h; omega
  | succ f ih =>
    intro i acc h
    unfold repaginateLoop
    split_ifs with hi
    · rw [ih (i + pageLimit) _ (by rw [pageLimit_eq]; omega)]
      have hn : (T.length - i + 9) / 10 = (T.length - (i + 10) + 9) / 10 + 1 := by omega
      rw [hn, List.range_succ_eq_map, pageLimit_eq]
      simp only [List.map_cons, List.map_map, List.append_assoc, List.singleton_append,
        Nat.mul_zero, Nat.add_zero]
      congr 2
      apply List.map_congr_left
      intro k _
      simp only [Function.comp, Nat.succ_eq_add_one]
      have e : i + 10 * (k + 1) = i + 10 + 10 * k := by omega
      rw [e]
    · have hn : (T.length - i + 9) / 10 = 0 := by omega
      simp [hn]

/-- The loop from `i = 0` yields the chunks of ten. -/
theorem repaginateLoop_zero (T : List Task) :
    repaginateLoop T (T.length + 1) 0 [] =
      (List.range ((T.length + 9) / 10)).map (fun k => slice T (10 * k) (10 * k + 10)) := by
  rw [repaginateLoop_eq T (T.length + 1) 0 [] (by omega)]
  simp

theorem chunks_flatten (T : List Task) (n : Nat) :
    ((List.range n).map (fun k => slice T (10 * k) (10 * k + 10))).flatten = T.take (10 * n) := by
  induction n with
  | zero => simp
  | succ n ih =>
    rw [List.range_succ, List.map_append, List.flatten_append, ih]
    simp only [List.map_cons, List.map_nil, List.flatten_cons, List.flatten_nil,
      List.append_nil]
    rw [slice_add_flatten]
    congr 1

/-- The pages written by `repaginate`, in closed form for a non-empty list. -/
theorem repaginate_eq (T : List Task) (h : T ≠ []) :
    repaginate T =
      (List.range ((T.length + 9) / 10)).map (fun k => slice T (10 * k) (10 * k + 10)) := by
  have hl : 0 < T.length := List.length_pos.mpr h
  unfold repaginate
  rw [repaginateLoop_zero]
  have : 0 < (T.length + 9) / 10 := by omega
  simp [this]

theorem repaginate_nil : repaginate [] = [[]] := by decide

theorem repaginate_flatten (T : List Task) : (repaginate T).flatten = T := by
  by_cases h : T = []
  · subst h; decide
  · rw [repaginate_eq T h, chunks_flatten]
    apply List.take_of_length_le
    omega

theorem chunk_mem_bounds (T : List Task) (p : Page)
    (hp : p ∈ (List.range ((T.length + 9) / 10)).map (fun k => slice T (10 * k) (10 * k + 10))) :
    0 < p.length ∧ p.length ≤ 10 := by
  rw [List.mem_map] at hp
  obtain ⟨k, hk, rfl⟩ := hp
  rw [List.mem_range] at hk
  rw [slice_length]
  omega

theorem chunk_dropLast_full (T : List Task) (p : Page)
    (hp : p ∈ ((List.range ((T.length + 9) / 10)).map
      (fun k => slice T (10 * k) (10 * k + 10))).dropLast) :
    p.length = 10 := by
  rw [List.mem_iff_getElem] at hp
  obtain ⟨i, hi, rfl⟩ := hp
  rw [List.length_dropLast, List.length_map, List.length_range] at hi
  rw [List.getElem_dropLast, List.getElem_map, List.getElem_range, slice_length]
  omega

/-! ## Lemmas on the cache -/

/-- The ids of the four columns. -/
theorem columns_ids : columns.map (fun c => c.id) = ["backlog", "in_progress", "review", "done"] :=
  rfl

theorem queryData_columns (cache : Cache) :
    queryData cache 0 = cache "backlog" ∧ queryData cache 1 = cache "in_progress" ∧
    queryData cache 2 = cache "review" ∧ queryData cache 3 = cache "done" :=
  ⟨rfl, rfl, rfl, rfl⟩

/-- `getTasksForCol` reads the cache entry of a board column and yields nothing
for any other id. -/
theorem getTasksForCol_eq (cache : Cache) (colId : String) :
    getTasksForCol cache colId =
      if colId ∈ columns.map (fun c => c.id) then loadedTasks (cache colId) else [] := by
  rw [columns_ids]
  by_cases h1 : colId = "backlog"
  · subst h1
    cases h : cache "backlog" <;>
      simp [getTasksForCol, columns, columnQueries, List.findIdx?_cons, h, loadedTasks]
  by_cases h2 : colId = "in_progress"
  · subst h2
    cases h : cache "in_progress" <;>
      simp [getTasksForCol, columns, columnQueries, List.findIdx?_cons, h, loadedTasks]
  by_cases h3 : colId = "review"
  · subst h3
    cases h : cache "review" <;>
      simp [getTasksForCol, columns, columnQueries, List.findIdx?_cons, h, loadedTasks]
  by_cases h4 : colId = "done"
  · subst h4
    cases h : cache "done" <;>
      simp [getTasksForCol, columns, columnQueries, List.findIdx?_cons, h, loadedTasks]
  · have e1 : ("backlog" == colId) = false := by simpa using fun h => h1 h.symm
    have e2 : ("in_progress" == colId) = false := by simpa using fun h => h2 h.symm
    have e3 : ("review" == colId) = false := by simpa using fun h => h3 h.symm
    have e4 : ("done" == colId) = false := by simpa using fun h => h4 h.symm
    simp [getTasksForCol, columns, List.findIdx?_cons, e1, e2, e3, e4, h1, h2, h3, h4]

theorem setQueryData_same (cache : Cache) (colId : String)
    (updater : Option InfiniteData → Option InfiniteData) :
    setQueryData cache colId updater colId = updater (cache colId) := by
  simp [setQueryData]

theorem setQueryData_other (cache : Cache) (colId k : String)
    (updater : Option InfiniteData → Option InfiniteData) (h : k ≠ colId) :
    setQueryData cache colId updater k = cache k := by
  simp [setQueryData, h]

theorem flatten_filter_nonempty (L : List Page) :
    (L.filter (fun page => decide (page.length > 0))).flatten = L.flatten := by
  induction L with
  | nil => rfl
  | cons p L ih =>
    cases p with
    | nil => simpa [List.filter] using ih
    | cons a p => simp [List.filter, ih]

/-- The source updater removes the dragged id from the flattened pages and
keeps everything else in order. -/
theorem loadedTasks_sourceUpdater (draggableId : String) (old : Option InfiniteData) :
    loadedTasks (sourceUpdater draggableId old) =
      (loadedTasks old).filter (fun task => task.id != draggableId) := by
  cases old with
  | none => rfl
  | some o =>
    simp only [sourceUpdater, loadedTasks]
    have hf := flatten_filter_nonempty
      (o.pages.map (fun page => page.filter (fun task => task.id != draggableId)))
    split_ifs with hlen
    · rw [hf, List.filter_flatten]
    · have hnil : (o.pages.map (fun page => page.filter (fun task => task.id != draggableId))).filter
          (fun page => decide (page.length > 0)) = [] := by
        apply List.eq_nil_of_length_eq_zero
        exact Nat.eq_zero_of_not_pos hlen
      rw [hnil] at hf
      rw [List.filter_flatten, ← hf]
      rfl

theorem sourceUpdater_isSome (draggableId : String) (old : Option InfiniteData) :
    (sourceUpdater draggableId old).isSome = old.isSome := by
  cases old <;> rfl

/-- The destination updater inserts the task at `index` of the flattened pages. -/
theorem loadedTasks_destUpdater (index : Nat) (updatedTask : Task) (old : Option InfiniteData)
    (h : old.isSome = true) :
    loadedTasks (destUpdater index updatedTask old) =
      (loadedTasks old).take index ++ [updatedTask] ++ (loadedTasks old).drop index := by
  cases old with
  | none => simp at h
  | some o => simp only [destUpdater, loadedTasks, repaginate_flatten]

theorem getElem?_insert_at {α : Type} (xs : List α) (x : α) (index : Nat) :
    (xs.take index ++ [x] ++ xs.drop index)[min index xs.length]? = some x := by
  rw [List.append_assoc, List.getElem?_append_right (by simp)]
  simp

/-! ## Lemmas on strings -/

theorem truthy_iff (s : String) : truthy s = true ↔ s ≠ "" := by
  cases s with
  | mk data =>
    cases data with
    | nil => simp [truthy]
    | cons a l =>
      simp only [truthy, List.isEmpty_cons, Bool.not_false, ne_eq, true_iff]
      intro h
      have := congrArg String.data h
      simp at this

theorem trim_of_whitespace (s : String) (h : ∀ c ∈ s.data, isJsWhitespace c = true) :
    trim s = "" := by
  have h1 : s.data.dropWhile isJsWhitespace = [] := List.dropWhile_eq_nil_iff.mpr h
  simp only [trim, trimChars, h1]
  rfl

theorem toLowerCase_empty : toLowerCase "" = "" := by decide

theorem trimChars_idempotent (cs : List Char) : trimChars (trimChars cs) = trimChars cs := by
  have e : ∀ l, trimChars l = List.rdropWhile isJsWhitespace (l.dropWhile isJsWhitespace) := by
    intro l; rfl
  have hfix : (trimChars cs).dropWhile isJsWhitespace = trimChars cs := by
    rw [e]
    obtain ⟨suffix, hs⟩ := List.rdropWhile_prefix isJsWhitespace
      (l := cs.dropWhile isJsWhitespace)
    cases hl : List.rdropWhile isJsWhitespace (cs.dropWhile isJsWhitespace) with
    | nil => rfl
    | cons a l =>
      rw [hl] at hs
      have hne : cs.dropWhile isJsWhitespace ≠ [] := by rw [← hs]; simp
      have hhead := List.head_dropWhile_not isJsWhitespace cs hne
      have ha : (cs.dropWhile isJsWhitespace).head hne = a := by
        simp [← hs]
      rw [ha] at hhead
      simp [List.dropWhile, hhead]
  rw [e (trimChars cs), hfix, e, List.rdropWhile_idempotent]

theorem trim_idempotent (s : String) : trim (trim s) = trim s := by
  simp only [trim, trimChars_idempotent]

/-! ## Theorems -/

/-- The result of `onDragEnd` once the dragged task is found in the source column. -/
theorem onDragEnd_found (cache : Cache) (r : DropResult) (d : DraggableLocation) (moved : Task)
    (hd : r.destination = some d)
    (hne : ¬ (r.source.droppableId = d.droppableId ∧ r.source.index = d.index))
    (hfind : (getTasksForCol cache r.source.droppableId).find?
      (fun t => t.id == r.draggableId) = some moved) :
    onDragEnd cache r =
      (setQueryData (setQueryData cache r.source.droppableId (sourceUpdater r.draggableId))
          d.droppableId (destUpdater d.index { moved with column := d.droppableId }),
        [⟨r.draggableId, ⟨none, none, some d.droppableId⟩⟩]) := by
  unfold onDragEnd
  rw [hd]
  simp only []
  rw [if_neg hne, hfind]

/-- C1 (amended): for a drop to another place, with the dragged id among the
loaded tasks of the source column: the source entry, when it is another column,
no longer has the id; when the destination entry holds data it has the task, its
column rewritten, at `min index n` where `n` is the length of the flattened
destination entry right before the insertion; when the destination entry holds
no data it is left as it is; every other entry is left as it is; and in every
case exactly one update `{ id, updates: { column: destCol } }` is issued. -/
theorem onDragEnd_moves (cache : Cache) (r : DropResult) (d : DraggableLocation)
    (hd : r.destination = some d)
    (hne : ¬ (r.source.droppableId = d.droppableId ∧ r.source.index = d.index))
    (hin : ∃ t ∈ getTasksForCol cache r.source.droppableId, t.id = r.draggableId) :
    (r.source.droppableId ≠ d.droppableId →
      ∀ t ∈ loadedTasks ((onDragEnd cache r).1 r.source.droppableId), t.id ≠ r.draggableId) ∧
    ((cache d.droppableId).isSome = true →
      ∃ moved ∈ getTasksForCol cache r.source.droppableId, moved.id = r.draggableId ∧
        (loadedTasks ((onDragEnd cache r).1 d.droppableId))[min d.index
          (if r.source.droppableId = d.droppableId then
            (loadedTasks (cache d.droppableId)).filter (fun t => t.id != r.draggableId)
          else loadedTasks (cache d.droppableId)).length]? =
          some { moved with column := d.droppableId }) ∧
    (cache d.droppableId = none →
      (onDragEnd cache r).1 d.droppableId = cache d.droppableId) ∧
    (∀ k, k ≠ r.source.droppableId → k ≠ d.droppableId → (onDragEnd cache r).1 k = cache k) ∧
    (onDragEnd cache r).2 = [⟨r.draggableId, ⟨none, none, some d.droppableId⟩⟩] := by
  obtain ⟨t, ht, hid⟩ := hin
  cases hfind : (getTasksForCol cache r.source.droppableId).find?
      (fun t => t.id == r.draggableId) with
  | none =>
    rw [List.find?_eq_none] at hfind
    exact absurd (by simpa using hid) (hfind t ht)
  | some moved =>
    have hm := List.mem_of_find?_eq_some hfind
    have hp : moved.id = r.draggableId := by simpa using List.find?_some hfind
    rw [onDragEnd_found cache r d moved hd hne hfind]
    refine ⟨?_, ?_, ?_, ?_, rfl⟩
    · intro hsd t1 ht1
      dsimp only at ht1
      rw [setQueryData_other _ _ _ _ hsd, setQueryData_same, loadedTasks_sourceUpdater] at ht1
      simpa using (List.mem_filter.mp ht1).2
    · intro hloaded
      refine ⟨moved, hm, hp, ?_⟩
      dsimp only
      rw [setQueryData_same]
      by_cases hsd : r.source.droppableId = d.droppableId
      · rw [if_pos hsd, hsd, setQueryData_same]
        rw [loadedTasks_destUpdater _ _ _ (by rw [sourceUpdater_isSome]; exact hloaded),
          loadedTasks_sourceUpdater]
        exact getElem?_insert_at _ _ _
      · rw [if_neg hsd, setQueryData_other _ _ _ _ (fun h => hsd h.symm)]
        rw [loadedTasks_destUpdater _ _ _ hloaded]
        exact getElem?_insert_at _ _ _
    · intro hnone
      have hsd : d.droppableId ≠ r.source.droppableId := by
        intro h
        rw [getTasksForCol_eq, ← h, hnone] at hm
        split_ifs at hm <;> simp [loadedTasks] at hm
      dsimp only
      rw [setQueryData_same, setQueryData_other _ _ _ _ hsd, hnone]
      rfl
    · intro k hks hkd
      dsimp only
      rw [setQueryData_other _ _ _ _ hkd, setQueryData_other _ _ _ _ hks]

/-- C1 (as stated) fails: with the first sample task loaded in the backlog and
the review query without data, dragging it to the review column leaves the
review entry as it was, without data, so the task is at no position of it; the
update is issued all the same. -/
theorem onDragEnd_unloaded_destination :
    dragToReview.destination = some ⟨"review", 0⟩ ∧
    ¬ (dragToReview.source.droppableId = "review" ∧ dragToReview.source.index = 0) ∧
    (∃ t ∈ getTasksForCol backlogOnlyCache dragToReview.source.droppableId,
      t.id = dragToReview.draggableId) ∧
    (onDragEnd backlogOnlyCache dragToReview).1 "review" = none ∧
    loadedTasks ((onDragEnd backlogOnlyCache dragToReview).1 "review") = [] ∧
    (loadedTasks ((onDragEnd backlogOnlyCache dragToReview).1 "review"))[min 0
      (loadedTasks (backlogOnlyCache "review")).length]? = none ∧
    (onDragEnd backlogOnlyCache dragToReview).2 = [⟨"1", ⟨none, none, some "review"⟩⟩] := by
  decide

/-- Witness of C1 (amended): the first sample task dragged from the backlog to
the loaded, empty review column, where it arrives at position 0; and the same
drag with the review query without data, which leaves the review entry alone. -/
theorem onDragEnd_moves_witness :
    (∀ t ∈ loadedTasks ((onDragEnd sampleCache dragToReview).1 "backlog"), t.id ≠ "1") ∧
    (∃ moved ∈ getTasksForCol sampleCache "backlog", moved.id = "1" ∧
      (loadedTasks ((onDragEnd sampleCache dragToReview).1 "review"))[0]? =
        some { moved with column := "review" }) ∧
    (onDragEnd sampleCache dragToReview).1 "done" = sampleCache "done" ∧
    (onDragEnd sampleCache dragToReview).2 = [⟨"1", ⟨none, none, some "review"⟩⟩] ∧
    (onDragEnd backlogOnlyCache dragToReview).1 "review" = backlogOnlyCache "review" ∧
    (onDragEnd backlogOnlyCache dragToReview).2 = [⟨"1", ⟨none, none, some "review"⟩⟩] := by
  have h := onDragEnd_moves sampleCache dragToReview ⟨"review", 0⟩ rfl (by decide) (by decide)
  have g := onDragEnd_moves backlogOnlyCache dragToReview ⟨"review", 0⟩ rfl (by decide)
    (by decide)
  exact ⟨h.1 (by decide), h.2.1 (by decide), h.2.2.2.1 "done" (by decide) (by decide),
    h.2.2.2.2, g.2.2.1 (by decide), g.2.2.2.2⟩

/-- C2: when the drop has no destination, or the destination is the source
column at the source index, `onDragEnd` leaves the cache as it is and issues no
repository update. -/
theorem onDragEnd_same_place (cache : Cache) (r : DropResult)
    (h : r.destination = none ∨
      ∃ d, r.destination = some d ∧ r.source.droppableId = d.droppableId ∧
        r.source.index = d.index) :
    onDragEnd cache r = (cache, []) := by
  unfold onDragEnd
  rcases h with h | ⟨d, hd, h1, h2⟩
  · rw [h]
  · rw [hd]
    simp [h1, h2]

/-- Witness of C2: a drop at the very place the task was taken from, and a
drop outside every column. -/
theorem onDragEnd_same_place_witness :
    onDragEnd sampleCache ⟨"1", ⟨"backlog", 0⟩, some ⟨"backlog", 0⟩⟩ = (sampleCache, []) ∧
    onDragEnd sampleCache ⟨"1", ⟨"backlog", 0⟩, none⟩ = (sampleCache, []) :=
  ⟨onDragEnd_same_place _ _ (Or.inr ⟨_, rfl, rfl, rfl⟩), onDragEnd_same_place _ _ (Or.inl rfl)⟩

/-- C3: the re-pagination of the destination updater keeps the tasks and their
order, makes pages of at most `pageLimit` tasks, all full except possibly the
last, none empty unless the list is empty, when the result is `[[]]`. -/
theorem repaginate_pages (T : List Task) :
    (repaginate T).flatten = T ∧
    (∀ p ∈ repaginate T, p.length ≤ pageLimit) ∧
    (∀ p ∈ (repaginate T).dropLast, p.length = pageLimit) ∧
    (T ≠ [] → ∀ p ∈ repaginate T, p ≠ []) ∧
    (T = [] → repaginate T = [[]]) := by
  refine ⟨repaginate_flatten T, ?_, ?_, ?_, ?_⟩
  · intro p hp
    by_cases h : T = []
    · subst h
      rw [repaginate_nil, List.mem_singleton] at hp
      subst hp; decide
    · rw [repaginate_eq T h] at hp
      exact (chunk_mem_bounds T p hp).2
  · intro p hp
    by_cases h : T = []
    · subst h
      rw [repaginate_nil] at hp
      simp at hp
    · rw [repaginate_eq T h] at hp
      exact chunk_dropLast_full T p hp
  · intro h p hp hnil
    rw [repaginate_eq T h] at hp
    have := (chunk_mem_bounds T p hp).1
    rw [hnil] at this
    simp at this
  · intro h
    subst h
    exact repaginate_nil

/-- C8: `hasMore` holds exactly when a page is loaded and the last loaded page
has `pageLimit` tasks; it fails when no data or no page is loaded and when the
last page is empty. -/
theorem hasMore_iff (data : Option InfiniteData) :
    (hasMore data = true ↔
      ∃ d p, data = some d ∧ d.pages.getLast? = some p ∧ p.length = pageLimit) ∧
    (data = none → hasMore data = false) ∧
    (∀ d, data = some d → d.pages = [] → hasMore data = false) ∧
    (∀ d, data = some d → d.pages.getLast? = some [] → hasMore data = false) := by
  refine ⟨?_, ?_, ?_, ?_⟩
  · cases data with
    | none => simp [hasMore, pageLimit]
    | some d =>
      cases hl : d.pages.getLast? with
      | none => simp [hasMore, hl, pageLimit]
      | some p => simp [hasMore, hl]
  · intro h; subst h; decide
  · intro d h hp; subst h; simp [hasMore, hp, pageLimit]
  · intro d h hp; subst h; simp [hasMore, hp, pageLimit]

/-- C4: for a search whose trimmed, lower-cased form `q` is not empty, the
search results hold, for each of the four columns, the number of tasks loaded in
that column's cache that are of that column and whose lower-cased title or
description contains `q`, and the count is the sum of the four; searching
`"task 1"` over the two sample tasks gives count 1, one match in the backlog and
none in progress. -/
theorem searchResults_counts :
    (∀ (search : String) (cache : Cache), toLowerCase (trim search) ≠ "" →
      (∀ c ∈ columns,
        (computeSearchResults search cache).columns.lookup c.id =
          some ((loadedTasks (cache c.id)).countP (fun t =>
            t.column == c.id &&
            (t.title.any (fun s => includes (toLowerCase s) (toLowerCase (trim search))) ||
             t.description.any (fun s => includes (toLowerCase s) (toLowerCase (trim search))))))) ∧
      (computeSearchResults search cache).columns.map (fun e => e.1) =
        columns.map (fun c => c.id) ∧
      (computeSearchResults search cache).count =
        ((computeSearchResults search cache).columns.map (fun e => e.2)).sum) ∧
    computeSearchResults "task 1" searchCache =
      ⟨1, [("backlog", 1), ("in_progress", 0), ("review", 0), ("done", 0)]⟩ ∧
    computeSearchResults "task 1" sampleCache =
      ⟨1, [("backlog", 1), ("in_progress", 0), ("review", 0), ("done", 0)]⟩ := by
  refine ⟨?_, by decide, by decide⟩
  intro search cache hq
  have ht : truthy (toLowerCase (trim search)) = true := (truthy_iff _).mpr hq
  have hpred : ∀ (q colId : String) (l : List Task),
      (l.filter (searchFilter q colId)).length = l.countP (fun t =>
        t.column == colId &&
        (t.title.any (fun s => includes (toLowerCase s) q) ||
         t.description.any (fun s => includes (toLowerCase s) q))) := by
    intro q colId l
    rw [List.countP_eq_length_filter]
    congr 2
    funext t
    cases h1 : t.title <;> cases h2 : t.description <;>
      simp [searchFilter, fieldMatch, h1, h2, Bool.and_comm]
  obtain ⟨q0, q1, q2, q3⟩ := queryData_columns cache
  have hres : computeSearchResults search cache =
      ⟨(((0 + ((loadedTasks (cache "backlog")).filter
            (searchFilter (toLowerCase (trim search)) "backlog")).length) +
          ((loadedTasks (cache "in_progress")).filter
            (searchFilter (toLowerCase (trim search)) "in_progress")).length) +
          ((loadedTasks (cache "review")).filter
            (searchFilter (toLowerCase (trim search)) "review")).length) +
          ((loadedTasks (cache "done")).filter
            (searchFilter (toLowerCase (trim search)) "done")).length,
        [("backlog", ((loadedTasks (cache "backlog")).filter
            (searchFilter (toLowerCase (trim search)) "backlog")).length),
         ("in_progress", ((loadedTasks (cache "in_progress")).filter
            (searchFilter (toLowerCase (trim search)) "in_progress")).length),
         ("review", ((loadedTasks (cache "review")).filter
            (searchFilter (toLowerCase (trim search)) "review")).length),
         ("done", ((loadedTasks (cache "done")).filter
            (searchFilter (toLowerCase (trim search)) "done")).length)]⟩ := by
    unfold computeSearchResults
    simp only [ht, Bool.not_true, Bool.false_eq_true, if_false]
    simp only [columns, List.enum, List.enumFrom, List.foldl, q0, q1, q2, q3]
    simp [setKey]
  rw [hres]
  refine ⟨?_, rfl, ?_⟩
  · intro c hc
    simp only [columns, List.mem_cons, List.mem_singleton, List.not_mem_nil, or_false] at hc
    rcases hc with rfl | rfl | rfl | rfl <;> simp [List.lookup, hpred]
  · simp [Nat.add_assoc]

/-- Witness of C4: the search `" Task "` over the two sample tasks. -/
theorem searchResults_counts_witness :
    (computeSearchResults " Task " sampleCache).columns.lookup "in_progress" = some 1 ∧
    (computeSearchResults " Task " sampleCache).count = 2 := by
  have h := searchResults_counts.1 " Task " sampleCache (by decide)
  refine ⟨?_, by decide⟩
  rw [h.1 ⟨"in_progress", "In Progress"⟩ (by decide)]
  decide

/-- C5: for a search that is empty or all white space, the search results are
the zero state `{ count: 0, columns: {} }` and every column shows exactly the
flattened tasks of its cache entry, in order, unfiltered. -/
theorem blank_search_shows_all (search : String) (cache : Cache)
    (h : ∀ c ∈ search.data, isJsWhitespace c = true) :
    computeSearchResults search cache = ⟨0, []⟩ ∧
    ∀ ic ∈ columns.enum, items search cache ic.1 ic.2 = loadedTasks (cache ic.2.id) := by
  have ht : trim search = "" := trim_of_whitespace search h
  constructor
  · unfold computeSearchResults
    rw [ht, toLowerCase_empty]
    rfl
  · intro ic hic
    have hitems : items search cache ic.1 ic.2 = loadedTasks (queryData cache ic.1) := by
      unfold items
      rw [ht]
      rfl
    rw [hitems]
    simp only [columns, List.enum, List.enumFrom, List.mem_cons, List.mem_singleton,
      List.not_mem_nil, or_false] at hic
    rcases hic with rfl | rfl | rfl | rfl <;> rfl

/-- Witness of C5: the search `"  "` over the two sample tasks in their columns. -/
theorem blank_search_shows_all_witness :
    computeSearchResults "  " sampleCache = ⟨0, []⟩ ∧
    items "  " sampleCache 1 ⟨"in_progress", "In Progress"⟩ = initialTasks.drop 1 := by
  have h := blank_search_shows_all "  " sampleCache (by decide)
  exact ⟨h.1, h.2 (1, ⟨"in_progress", "In Progress"⟩) (by decide)⟩

/-- C6: with a title that is empty or all white space, `handleSaveNew` sets the
title error to "Title is required", issues no create call and leaves the form
and the dialog as they are; with a title whose trimmed form is not empty it
issues exactly one create call, carrying the trimmed title. -/
theorem handleSaveNew_validation :
    (∀ (st : DialogState) (cache : Cache),
      (∀ c ∈ st.form.title.data, isJsWhitespace c = true) →
        (handleSaveNew st cache).2 = [] ∧
        (handleSaveNew st cache).1.formErrors.title = "Title is required" ∧
        (handleSaveNew st cache).1.form = st.form ∧
        (handleSaveNew st cache).1.openNew = st.openNew) ∧
    (∀ (st : DialogState) (cache : Cache), trim st.form.title ≠ "" →
      ∃ task, (handleSaveNew st cache).2 = [task] ∧
        task.title = some (trim st.form.title)) ∧
    handleSaveNew (dialogWith "") sampleCache =
      (⟨⟨"", "", "backlog"⟩, true, ⟨"Title is required"⟩⟩, []) ∧
    handleSaveNew (dialogWith "   ") sampleCache =
      (⟨⟨"   ", "", "backlog"⟩, true, ⟨"Title is required"⟩⟩, []) := by
  refine ⟨?_, ?_, by decide, by decide⟩
  · intro st cache h
    have ht : trim st.form.title = "" := trim_of_whitespace _ h
    have hout : handleSaveNew st cache =
        ({ st with formErrors := { st.formErrors with title := "Title is required" } }, []) := by
      unfold handleSaveNew
      rw [ht]
      rfl
    rw [hout]
    exact ⟨rfl, rfl, rfl, rfl⟩
  · intro st cache h
    have ht : truthy (trim st.form.title) = true := (truthy_iff _).mpr h
    unfold handleSaveNew
    simp only [ht, Bool.not_true, Bool.false_eq_true, if_false]
    exact ⟨_, rfl, rfl⟩

/-- Witness of C6: the title `"  Write tests "` gives one create call with the
title `"Write tests"`. -/
theorem handleSaveNew_validation_witness :
    ∃ task, (handleSaveNew (dialogWith "  Write tests ") sampleCache).2 = [task] ∧
      task.title = some "Write tests" := by
  obtain ⟨task, h1, h2⟩ :=
    handleSaveNew_validation.2.1 (dialogWith "  Write tests ") sampleCache (by decide)
  exact ⟨task, h1, by rw [h2]; decide⟩

/-- C7 fails on the code: with sample task 1 loaded in the backlog and sample
task 2 loaded in progress, the highest loaded id is 2, yet the new task gets the
id "2", the id of the task in progress: `allTasks` repeats the pages of the
first query that has data and never reads the other columns. -/
theorem handleSaveNew_id_collides :
    (handleSaveNew (dialogWith "New task") sampleCache).2.map (fun t => t.id) = ["2"] ∧
    (∃ t ∈ loadedTasks (sampleCache "in_progress"), t.id = "2") ∧
    allTasksForNewId sampleCache =
      [initialTasks.take 1, initialTasks.take 1, initialTasks.take 1,
        initialTasks.take 1].flatten := by
  decide

/-- C10: for a board column and any search, the request of a page fetch has the
column filter and no `q` when the trimmed search is empty, and `q` equal to the
trimmed search and no column filter otherwise; never both; and always the
requested page, the limit 10, the sort key `id` and the order `asc`. -/
theorem fetch_request_params (colId search : String) (page : Nat)
    (hcol : colId ∈ columns.map (fun c => c.id)) :
    (trim search = "" →
      (fetchTasks (queryFnArgs search colId (some page))).column = some colId ∧
      (fetchTasks (queryFnArgs search colId (some page))).q = none) ∧
    (trim search ≠ "" →
      (fetchTasks (queryFnArgs search colId (some page))).q = some (trim search) ∧
      (fetchTasks (queryFnArgs search colId (some page))).column = none) ∧
    ¬ ((fetchTasks (queryFnArgs search colId (some page))).q.isSome = true ∧
       (fetchTasks (queryFnArgs search colId (some page))).column.isSome = true) ∧
    (fetchTasks (queryFnArgs search colId (some page)))._page = page ∧
    (fetchTasks (queryFnArgs search colId none))._page = 1 ∧
    (fetchTasks (queryFnArgs search colId (some page)))._limit = 10 ∧
    (fetchTasks (queryFnArgs search colId (some page)))._sort = "id" ∧
    (fetchTasks (queryFnArgs search colId (some page)))._order = "asc" := by
  have hc : truthy colId = true := by
    rw [columns_ids] at hcol
    simp only [List.mem_cons, List.mem_singleton, List.not_mem_nil, or_false] at hcol
    rcases hcol with rfl | rfl | rfl | rfl <;> decide
  have hempty : trim search = "" →
      (fetchTasks (queryFnArgs search colId (some page))).column = some colId ∧
      (fetchTasks (queryFnArgs search colId (some page))).q = none := by
    intro h
    have h1 : truthy (trim search) = false := by rw [h]; decide
    simp [fetchTasks, queryFnArgs, h1, hc]
  have hfull : trim search ≠ "" →
      (fetchTasks (queryFnArgs search colId (some page))).q = some (trim search) ∧
      (fetchTasks (queryFnArgs search colId (some page))).column = none := by
    intro h
    have h1 : truthy (trim search) = true := (truthy_iff _).mpr h
    simp [fetchTasks, queryFnArgs, h1, trim_idempotent]
  refine ⟨hempty, hfull, ?_, rfl, rfl, rfl, rfl, rfl⟩
  by_cases h : trim search = ""
  · rw [(hempty h).2]; simp
  · rw [(hfull h).2]; simp

/-- Witness of C10: the third page of the review column, with the search
`" a b "` and without a search. -/
theorem fetch_request_params_witness :
    ((fetchTasks (queryFnArgs " a b " "review" (some 3))).q = some (trim " a b ") ∧
      (fetchTasks (queryFnArgs " a b " "review" (some 3))).column = none) ∧
    ((fetchTasks (queryFnArgs "" "review" (some 3))).column = some "review" ∧
      (fetchTasks (queryFnArgs "" "review" (some 3))).q = none) ∧
    trim " a b " = "a b" :=
  ⟨(fetch_request_params "review" " a b " 3 (by decide)).2.1 (by decide),
    (fetch_request_params "review" "" 3 (by decide)).1 (by decide), by decide⟩

/-- The page served for a fetch of a column query with no search. -/
theorem repositoryList_fetch (all : List Task) (colId : String) (pageParam : Option Nat) :
    repositoryList all (fetchTasks (queryFnArgs "" colId pageParam)) =
      slice all ((pageParam.getD 1 - 1) * 10) (pageParam.getD 1 * 10) := by
  simp [repositoryList, fetchTasks, queryFnArgs, pageLimit]

theorem chunks_succ (T : List Task) (j : Nat) :
    (List.range (j + 1)).map (fun k => slice T (10 * k) (10 * k + 10)) =
      (List.range j).map (fun k => slice T (10 * k) (10 * k + 10)) ++
        [slice T (10 * j) (10 * j + 10)] := by
  rw [List.range_succ, List.map_append]
  rfl

/-- One load from the first `j + 1` pages: the next page while the last one is
full, and no load after the first page that is not full. -/
theorem loadNextPage_chunks (all : List Task) (colId : String) (j : Nat)
    (hj : j ≤ all.length / 10) :
    loadNextPage all colId ((List.range (j + 1)).map (fun k => slice all (10 * k) (10 * k + 10))) =
      if j < all.length / 10 then
        some ((List.range (j + 2)).map (fun k => slice all (10 * k) (10 * k + 10)))
      else none := by
  unfold loadNextPage
  rw [chunks_succ all j, List.getLast?_concat]
  simp only [getNextPageParam, slice_length, pageLimit_eq]
  split_ifs with h1 h2 h2
  · omega
  · rfl
  · dsimp only
    rw [repositoryList_fetch, ← chunks_succ all j, chunks_succ all (j + 1)]
    simp only [List.length_map, List.length_range, Option.getD_some]
    have e1 : (j + 1 + 1 - 1) * 10 = 10 * (j + 1) := by omega
    have e2 : (j + 1 + 1) * 10 = 10 * (j + 1) + 10 := by omega
    rw [e1, e2]
  · omega

/-- Loading from the first `j + 1` pages ends with the first `N / 10 + 1` pages. -/
theorem loadAll_chunks (all : List Task) (colId : String) :
    ∀ (fuel j : Nat), j ≤ all.length / 10 → all.length / 10 - j < fuel →
      loadAll all colId fuel ((List.range (j + 1)).map (fun k => slice all (10 * k) (10 * k + 10))) =
        some ((List.range (all.length / 10 + 1)).map
          (fun k => slice all (10 * k) (10 * k + 10))) := by
  intro fuel
  induction fuel with
  | zero => intro j _ h; omega
  | succ f ih =>
    intro j hj hf
    unfold loadAll
    rw [loadNextPage_chunks all colId j hj]
    by_cases h : j < all.length / 10
    · rw [if_pos h]
      exact ih (j + 1) (by omega) (by omega)
    · rw [if_neg h]
      have e : j = all.length / 10 := by omega
      rw [e]

/-- Loading from an empty query ends with the first `N / 10 + 1` pages. -/
theorem loadAll_start (all : List Task) (colId : String) (fuel : Nat)
    (hfuel : all.length / 10 + 2 ≤ fuel) :
    loadAll all colId fuel [] =
      some ((List.range (all.length / 10 + 1)).map
        (fun k => slice all (10 * k) (10 * k + 10))) := by
  obtain ⟨f, rfl⟩ : ∃ f, fuel = f + 1 := ⟨fuel - 1, by omega⟩
  unfold loadAll
  have h1 : loadNextPage all colId [] =
      some ((List.range (0 + 1)).map (fun k => slice all (10 * k) (10 * k + 10))) := by
    unfold loadNextPage
    rw [repositoryList_fetch]
    rfl
  rw [h1]
  exact loadAll_chunks all colId f 0 (by omega) (by omega)

/-- C9: against a repository serving the `N` tasks of a column in order, in
pages of `pageLimit`, loading until there is no next page ends (given room for
`N / 10 + 2` steps) with `N / 10` full pages and a last page of `N % 10` tasks,
whose concatenation is the task list; `hasMore` holds after each full page and
fails after the last page, where no further load takes place; for `N = 25` the
page lengths are 10, 10, 5. -/
theorem loadAll_pages (all : List Task) (colId : String) (fuel : Nat)
    (hfuel : all.length / pageLimit + 2 ≤ fuel) :
    ∃ pages, loadAll all colId fuel [] = some pages ∧
      pages.map List.length =
        List.replicate (all.length / pageLimit) pageLimit ++ [all.length % pageLimit] ∧
      pages.flatten = all ∧
      (∀ k pageParams, 1 ≤ k → k ≤ all.length / pageLimit →
        hasMore (some ⟨pages.take k, pageParams⟩) = true) ∧
      (∀ pageParams, hasMore (some ⟨pages, pageParams⟩) = false) ∧
      loadNextPage all colId pages = none ∧
      (all.length = 25 → pages.map List.length = [10, 10, 5]) := by
  rw [pageLimit_eq] at hfuel
  have hlen : (List.range (all.length / 10 + 1)).map
        (fun k => (slice all (10 * k) (10 * k + 10)).length) =
      List.replicate (all.length / 10) 10 ++ [all.length % 10] := by
    rw [List.range_succ, List.map_append]
    congr 1
    · rw [List.eq_replicate_iff]
      refine ⟨by simp, ?_⟩
      intro b hb
      rw [List.mem_map] at hb
      obtain ⟨k, hk, rfl⟩ := hb
      rw [List.mem_range] at hk
      rw [slice_length]
      omega
    · simp only [List.map_cons, List.map_nil, slice_length]
      congr 1
      omega
  refine ⟨_, loadAll_start all colId fuel hfuel, ?_, ?_, ?_, ?_, ?_, ?_⟩
  · rw [List.map_map, pageLimit_eq]
    exact hlen
  · rw [chunks_flatten]
    apply List.take_of_length_le
    omega
  · intro k pageParams hk1 hk2
    rw [pageLimit_eq] at hk2
    obtain ⟨j, rfl⟩ : ∃ j, k = j + 1 := ⟨k - 1, by omega⟩
    rw [← List.map_take, List.take_range, Nat.min_eq_left (by omega), chunks_succ]
    simp only [hasMore, List.getLast?_concat, Option.map_some', Option.getD_some, slice_length,
      pageLimit_eq, beq_iff_eq]
    omega
  · intro pageParams
    rw [chunks_succ]
    simp only [hasMore, List.getLast?_concat, Option.map_some', Option.getD_some, slice_length,
      pageLimit_eq]
    rw [beq_eq_false_iff_ne]
    omega
  · rw [loadNextPage_chunks all colId _ (Nat.le_refl _), if_neg (Nat.lt_irrefl _)]
  · intro h25
    rw [List.map_map]
    show (List.range (all.length / 10 + 1)).map
        (fun k => (slice all (10 * k) (10 * k + 10)).length) = [10, 10, 5]
    rw [hlen, h25]
    rfl

/-- Witness of C9: twenty-five backlog tasks load as pages of 10, 10 and 5
tasks, after which `hasMore` is false. -/
theorem loadAll_pages_witness :
    ∃ pages, loadAll backlog25 "backlog" 4 [] = some pages ∧
      pages.map List.length = [10, 10, 5] ∧ pages.flatten = backlog25 ∧
      hasMore (some ⟨pages.take 1, [none]⟩) = true ∧
      hasMore (some ⟨pages.take 2, [none, some 2]⟩) = true ∧
      hasMore (some ⟨pages, [none, some 2, some 3]⟩) = false := by
  obtain ⟨pages, h1, _, h3, h4, h5, _, h7⟩ := loadAll_pages backlog25 "backlog" 4 (by decide)
  exact ⟨pages, h1, h7 (by decide), h3, h4 1 _ (by decide) (by decide),
    h4 2 _ (by decide) (by decide), h5 _⟩

/-! ## The two cache writes of `onDragEnd` -/

theorem filtered_pages_nil_iff (L : List Page) :
    L.filter (fun page => decide (page.length > 0)) = [] ↔ L.flatten = [] := by
  induction L with
  | nil => simp
  | cons p L ih =>
    cases p with
    | nil => simp [List.filter]
    | cons a p => simp [List.filter]

/-- The entry written by the source updater, in closed form. -/
theorem sourceUpdater_some (draggableId : String) (o : InfiniteData) :
    sourceUpdater draggableId (some o) =
      some ⟨if o.pages.flatten.filter (fun t => t.id != draggableId) = [] then [[]]
          else (o.pages.map (fun page => page.filter (fun t => t.id != draggableId))).filter
            (fun page => !page.isEmpty),
        o.pageParams⟩ := by
  have hg : (fun page : Page => decide (page.length > 0)) = (fun page => !page.isEmpty) := by
    funext page
    cases page <;> simp
  have hnil := filtered_pages_nil_iff
    (o.pages.map (fun page => page.filter (fun t => t.id != draggableId)))
  rw [← List.filter_flatten] at hnil
  simp only [sourceUpdater]
  by_cases h : o.pages.flatten.filter (fun t => t.id != draggableId) = []
  · rw [if_pos h, hnil.mpr h]
    rfl
  · rw [if_neg h]
    have hne : (o.pages.map (fun page => page.filter (fun t => t.id != draggableId))).filter
        (fun page => decide (page.length > 0)) ≠ [] := fun hc => h (hnil.mp hc)
    rw [if_pos (List.length_pos.mpr hne), hg]

theorem mem_loadedTasks_of_getTasksForCol (cache : Cache) (colId : String) (t : Task)
    (h : t ∈ getTasksForCol cache colId) : t ∈ loadedTasks (cache colId) := by
  rw [getTasksForCol_eq] at h
  split_ifs at h with hc
  · exact h
  · simp at h

/-- The handler either leaves the cache alone and issues nothing, or finds the
dragged task among the loaded tasks of the source column and performs both writes. -/
theorem onDragEnd_cases (cache : Cache) (r : DropResult) :
    onDragEnd cache r = (cache, []) ∨
    ∃ d moved, r.destination = some d ∧ moved ∈ loadedTasks (cache r.source.droppableId) ∧
      moved.id = r.draggableId ∧
      onDragEnd cache r =
        (setQueryData (setQueryData cache r.source.droppableId (sourceUpdater r.draggableId))
            d.droppableId (destUpdater d.index { moved with column := d.droppableId }),
          [⟨r.draggableId, ⟨none, none, some d.droppableId⟩⟩]) := by
  cases hd : r.destination with
  | none => left; unfold onDragEnd; rw [hd]
  | some d =>
    by_cases hne : r.source.droppableId = d.droppableId ∧ r.source.index = d.index
    · left
      unfold onDragEnd
      rw [hd]
      simp only []
      rw [if_pos hne]
    · cases hfind : (getTasksForCol cache r.source.droppableId).find?
          (fun t => t.id == r.draggableId) with
      | none =>
        left
        unfold onDragEnd
        rw [hd]
        simp only []
        rw [if_neg hne, hfind]
      | some moved =>
        right
        exact ⟨d, moved, rfl,
          mem_loadedTasks_of_getTasksForCol _ _ _ (List.mem_of_find?_eq_some hfind),
          by simpa using List.find?_some hfind,
          onDragEnd_found cache r d moved hd hne hfind⟩

/-- The destination entry after both writes: untouched and empty when it holds
no data, else the task inserted into the tasks it held before the insertion. -/
theorem loadedTasks_after_dest (cache : Cache) (src dest draggableId : String) (index : Nat)
    (u : Task) :
    loadedTasks (setQueryData (setQueryData cache src (sourceUpdater draggableId)) dest
      (destUpdater index u) dest) = [] ∨
    loadedTasks (setQueryData (setQueryData cache src (sourceUpdater draggableId)) dest
      (destUpdater index u) dest) =
      (if src = dest then (loadedTasks (cache dest)).filter (fun t => t.id != draggableId)
        else loadedTasks (cache dest)).take index ++ [u] ++
      (if src = dest then (loadedTasks (cache dest)).filter (fun t => t.id != draggableId)
        else loadedTasks (cache dest)).drop index := by
  rw [setQueryData_same]
  by_cases hsd : src = dest
  · subst hsd
    rw [setQueryData_same, if_pos rfl]
    cases h : cache src with
    | none => left; rfl
    | some o =>
      right
      rw [← h, loadedTasks_destUpdater _ _ _ (by rw [sourceUpdater_isSome, h]; rfl),
        loadedTasks_sourceUpdater]
  · rw [setQueryData_other _ _ _ _ (fun h => hsd h.symm), if_neg hsd]
    cases h : cache dest with
    | none => left; rfl
    | some o =>
      right
      rw [← h, loadedTasks_destUpdater _ _ _ (by rw [h]; rfl)]

/-- The source entry after both writes, when the destination is another column. -/
theorem loadedTasks_after_source (cache : Cache) (src dest draggableId : String) (index : Nat)
    (u : Task) (hsd : src ≠ dest) :
    loadedTasks (setQueryData (setQueryData cache src (sourceUpdater draggableId)) dest
      (destUpdater index u) src) =
      (loadedTasks (cache src)).filter (fun t => t.id != draggableId) := by
  rw [setQueryData_other _ _ _ _ hsd, setQueryData_same, loadedTasks_sourceUpdater]

theorem nodup_ids_insert (l : List Task) (u : Task) (index : Nat)
    (hl : (l.map (fun t => t.id)).Nodup) (hu : ∀ t ∈ l, t.id ≠ u.id) :
    ((l.take index ++ [u] ++ l.drop index).map (fun t => t.id)).Nodup := by
  rw [List.append_assoc, List.singleton_append, List.map_append, List.map_cons,
    List.nodup_middle, ← List.map_append, List.take_append_drop, List.nodup_cons]
  refine ⟨?_, hl⟩
  intro hmem
  rw [List.mem_map] at hmem
  obtain ⟨t, ht, hid⟩ := hmem
  exact hu t ht hid

theorem nodup_ids_filter (l : List Task) (p : Task → Bool)
    (hl : (l.map (fun t => t.id)).Nodup) : ((l.filter p).map (fun t => t.id)).Nodup :=
  List.Nodup.sublist ((List.filter_sublist l).map _) hl

/-- C11 (amended): the entry that `onDragEnd` writes back for the source column
keeps the old pages, each with the dragged task filtered out, and drops the pages
left empty (`[[]]` when no task remains). The written pages concatenate to the
remaining tasks in order, none is empty while a task remains, and none is longer
than `pageLimit` when the old pages were not; when the destination is another
column this is the source entry after the handler. -/
theorem onDragEnd_source_pages (cache : Cache) (r : DropResult) (d : DraggableLocation)
    (o : InfiniteData)
    (hd : r.destination = some d)
    (ho : cache r.source.droppableId = some o)
    (hin : ∃ t ∈ getTasksForCol cache r.source.droppableId, t.id = r.draggableId) :
    ∃ o1, sourceUpdater r.draggableId (cache r.source.droppableId) = some o1 ∧
      (r.source.droppableId ≠ d.droppableId →
        (onDragEnd cache r).1 r.source.droppableId = some o1) ∧
      o1.pageParams = o.pageParams ∧
      o1.pages.flatten = o.pages.flatten.filter (fun t => t.id != r.draggableId) ∧
      (o.pages.flatten.filter (fun t => t.id != r.draggableId) ≠ [] →
        o1.pages =
          (o.pages.map (fun page => page.filter (fun t => t.id != r.draggableId))).filter
            (fun page => !page.isEmpty)) ∧
      (o.pages.flatten.filter (fun t => t.id != r.draggableId) = [] → o1.pages = [[]]) ∧
      (o.pages.flatten.filter (fun t => t.id != r.draggableId) ≠ [] →
        ∀ p ∈ o1.pages, p ≠ []) ∧
      ((∀ p ∈ o.pages, p.length ≤ pageLimit) → ∀ p ∈ o1.pages, p.length ≤ pageLimit) := by
  refine ⟨⟨if o.pages.flatten.filter (fun t => t.id != r.draggableId) = [] then [[]]
      else (o.pages.map (fun page => page.filter (fun t => t.id != r.draggableId))).filter
        (fun page => !page.isEmpty), o.pageParams⟩,
    by rw [ho, sourceUpdater_some], ?_, rfl, ?_, ?_, ?_, ?_, ?_⟩
  · intro hsd
    obtain ⟨t, ht, hid⟩ := hin
    cases hfind : (getTasksForCol cache r.source.droppableId).find?
        (fun t => t.id == r.draggableId) with
    | none =>
      rw [List.find?_eq_none] at hfind
      exact absurd (by simpa using hid) (hfind t ht)
    | some moved =>
      rw [onDragEnd_found cache r d moved hd (fun h => hsd h.1) hfind]
      dsimp only
      rw [setQueryData_other _ _ _ _ hsd, setQueryData_same, ho, sourceUpdater_some]
  · have h := loadedTasks_sourceUpdater r.draggableId (some o)
    rw [sourceUpdater_some] at h
    exact h
  · intro h
    dsimp only
    rw [if_neg h]
  · intro h
    dsimp only
    rw [if_pos h]
  · intro h p hp
    dsimp only at hp
    rw [if_neg h] at hp
    have := (List.mem_filter.mp hp).2
    intro hnil
    rw [hnil] at this
    simp at this
  · intro hle p hp
    dsimp only at hp
    split_ifs at hp with h
    · rw [List.mem_singleton] at hp
      rw [hp]
      exact Nat.zero_le _
    · have hp1 := (List.mem_filter.mp hp).1
      rw [List.mem_map] at hp1
      obtain ⟨q, hq, rfl⟩ := hp1
      exact Nat.le_trans (List.length_filter_le _ _) (hle q hq)

/-- C11 (as stated) fails: with twenty-five backlog tasks loaded in pages of 10,
10 and 5, dragging task 1 to the review column writes back pages of 9, 10 and 5
tasks, so the first page, which is not the last, has 9 tasks; re-chunking the
remaining tasks would give pages of 10, 10 and 4. -/
theorem onDragEnd_source_not_rechunked :
    (∃ t ∈ getTasksForCol pagedBacklogCache "backlog", t.id = "1") ∧
    ((onDragEnd pagedBacklogCache dragToReview).1 "backlog").map
      (fun data => data.pages.map List.length) = some [9, 10, 5] ∧
    (repaginate ((loadedTasks (pagedBacklogCache "backlog")).filter
      (fun t => t.id != "1"))).map List.length = [10, 10, 4] ∧
    ¬ (∀ data, (onDragEnd pagedBacklogCache dragToReview).1 "backlog" = some data →
      ∀ p ∈ data.pages.dropLast, p.length = pageLimit) := by
  refine ⟨by decide, by decide, by decide, ?_⟩
  intro h
  cases hdata : (onDragEnd pagedBacklogCache dragToReview).1 "backlog" with
  | none =>
    have : ((onDragEnd pagedBacklogCache dragToReview).1 "backlog").isSome = true := by decide
    rw [hdata] at this
    simp at this
  | some data =>
    have hlen : ((onDragEnd pagedBacklogCache dragToReview).1 "backlog").map
        (fun data => data.pages.map List.length) = some [9, 10, 5] := by decide
    rw [hdata] at hlen
    simp only [Option.map_some', Option.some.injEq] at hlen
    have hall := h data hdata
    have h2 : ∀ n ∈ (data.pages.map List.length).dropLast, n = pageLimit := by
      intro n hn
      rw [← List.map_dropLast, List.mem_map] at hn
      obtain ⟨p, hp, rfl⟩ := hn
      exact hall p hp
    rw [hlen] at h2
    exact absurd (h2 9 (by decide)) (by decide)

/-- Witness of C11 (amended): the same drag, where the written pages are the old
pages without task 1. -/
theorem onDragEnd_source_pages_witness :
    ∃ o1, (onDragEnd pagedBacklogCache dragToReview).1 "backlog" = some o1 ∧
      o1.pages = [(backlog25.take 10).drop 1, (backlog25.drop 10).take 10, backlog25.drop 20] ∧
      ∀ p ∈ o1.pages, p.length ≤ pageLimit := by
  obtain ⟨o1, h1, h2, _, _, h5, _, _, h8⟩ :=
    onDragEnd_source_pages pagedBacklogCache dragToReview ⟨"review", 0⟩
      ⟨[backlog25.take 10, (backlog25.drop 10).take 10, backlog25.drop 20],
        [none, some 2, some 3]⟩ rfl rfl (by decide)
  refine ⟨o1, h2 (by decide), ?_, h8 (by decide)⟩
  rw [h5 (by decide)]
  decide

/-- C12 (amended): when no id occurs twice in the flattened source entry nor in
the flattened destination entry, and the dragged id is not already in the
destination entry of another column, then after `onDragEnd` no id occurs twice
in the flattened source entry nor in the flattened destination entry. -/
theorem onDragEnd_nodup_ids (cache : Cache) (r : DropResult)
    (hs : ((loadedTasks (cache r.source.droppableId)).map (fun t => t.id)).Nodup)
    (hdst : ∀ d, r.destination = some d →
      ((loadedTasks (cache d.droppableId)).map (fun t => t.id)).Nodup)
    (hfresh : ∀ d, r.destination = some d → r.source.droppableId ≠ d.droppableId →
      ∀ t ∈ loadedTasks (cache d.droppableId), t.id ≠ r.draggableId) :
    ((loadedTasks ((onDragEnd cache r).1 r.source.droppableId)).map (fun t => t.id)).Nodup ∧
    ∀ d, r.destination = some d →
      ((loadedTasks ((onDragEnd cache r).1 d.droppableId)).map (fun t => t.id)).Nodup := by
  rcases onDragEnd_cases cache r with h | ⟨d, moved, hd, _, hid, h⟩
  · rw [h]
    exact ⟨hs, hdst⟩
  · rw [h]
    dsimp only
    have hA := loadedTasks_after_dest cache r.source.droppableId d.droppableId r.draggableId
      d.index { moved with column := d.droppableId }
    have hB := loadedTasks_after_source cache r.source.droppableId d.droppableId r.draggableId
      d.index { moved with column := d.droppableId }
    generalize setQueryData (setQueryData cache r.source.droppableId
      (sourceUpdater r.draggableId)) d.droppableId
      (destUpdater d.index { moved with column := d.droppableId }) = c2 at hA hB ⊢
    have hdest : ((loadedTasks (c2 d.droppableId)).map (fun t => t.id)).Nodup := by
      rcases hA with h0 | h1
      · rw [h0]
        exact List.nodup_nil
      · rw [h1]
        apply nodup_ids_insert
        · by_cases hsd : r.source.droppableId = d.droppableId
          · rw [if_pos hsd]
            exact nodup_ids_filter _ _ (hdst d hd)
          · rw [if_neg hsd]
            exact hdst d hd
        · intro t ht
          show t.id ≠ moved.id
          rw [hid]
          by_cases hsd : r.source.droppableId = d.droppableId
          · rw [if_pos hsd] at ht
            simpa using (List.mem_filter.mp ht).2
          · rw [if_neg hsd] at ht
            exact hfresh d hd hsd t ht
    constructor
    · by_cases hsd : r.source.droppableId = d.droppableId
      · rw [hsd]
        exact hdest
      · rw [hB hsd]
        exact nodup_ids_filter _ _ hs
    · intro d1 hd1
      rw [hd] at hd1
      cases hd1
      exact hdest

/-- C12 (as stated) fails: during a search every column query holds both sample
tasks; no id occurs twice in the backlog entry nor in the review entry, yet after
dragging task 1 from the backlog to the review column the review entry holds the
ids 1, 1, 2. -/
theorem onDragEnd_duplicates_id :
    ((loadedTasks (searchCache "backlog")).map (fun t => t.id)).Nodup ∧
    ((loadedTasks (searchCache "review")).map (fun t => t.id)).Nodup ∧
    (loadedTasks ((onDragEnd searchCache dragToReview).1 "review")).map (fun t => t.id) =
      ["1", "1", "2"] ∧
    ¬ ((loadedTasks ((onDragEnd searchCache dragToReview).1 "review")).map
      (fun t => t.id)).Nodup := by
  decide

/-- Witness of C12 (amended): task 1 dragged from the backlog to the loaded,
empty review column. -/
theorem onDragEnd_nodup_ids_witness :
    ((loadedTasks ((onDragEnd sampleCache dragToReview).1 "backlog")).map
      (fun t => t.id)).Nodup ∧
    ((loadedTasks ((onDragEnd sampleCache dragToReview).1 "review")).map
      (fun t => t.id)).Nodup := by
  have h := onDragEnd_nodup_ids sampleCache dragToReview (by decide)
    (fun d hd => by cases Option.some.inj hd; decide)
    (fun d hd _ => by cases Option.some.inj hd; decide)
  exact ⟨h.1, h.2 ⟨"review", 0⟩ rfl⟩

/-- C13: when every task of the source entry has the source column and every
task of the destination entry has the destination column, the same holds for
both entries after `onDragEnd`; each task of the destination entry was there
before or is the dragged task of the source entry with its column rewritten to
the destination column and its other fields kept. -/
theorem onDragEnd_column_membership (cache : Cache) (r : DropResult)
    (hs : ∀ t ∈ loadedTasks (cache r.source.droppableId), t.column = r.source.droppableId)
    (hdst : ∀ d, r.destination = some d →
      ∀ t ∈ loadedTasks (cache d.droppableId), t.column = d.droppableId) :
    (∀ t ∈ loadedTasks ((onDragEnd cache r).1 r.source.droppableId),
      t.column = r.source.droppableId) ∧
    ∀ d, r.destination = some d →
      (∀ t ∈ loadedTasks ((onDragEnd cache r).1 d.droppableId), t.column = d.droppableId) ∧
      (∀ t ∈ loadedTasks ((onDragEnd cache r).1 d.droppableId),
        t ∈ loadedTasks (cache d.droppableId) ∨
        ∃ moved ∈ loadedTasks (cache r.source.droppableId), moved.id = r.draggableId ∧
          t = { moved with column := d.droppableId }) := by
  rcases onDragEnd_cases cache r with h | ⟨d, moved, hd, hm, hid, h⟩
  · rw [h]
    exact ⟨hs, fun d hd => ⟨hdst d hd, fun t ht => Or.inl ht⟩⟩
  · rw [h]
    dsimp only
    have hA := loadedTasks_after_dest cache r.source.droppableId d.droppableId r.draggableId
      d.index { moved with column := d.droppableId }
    have hB := loadedTasks_after_source cache r.source.droppableId d.droppableId r.draggableId
      d.index { moved with column := d.droppableId }
    generalize setQueryData (setQueryData cache r.source.droppableId
      (sourceUpdater r.draggableId)) d.droppableId
      (destUpdater d.index { moved with column := d.droppableId }) = c2 at hA hB ⊢
    have hbefore : ∀ t ∈ (if r.source.droppableId = d.droppableId then
          (loadedTasks (cache d.droppableId)).filter (fun t => t.id != r.draggableId)
        else loadedTasks (cache d.droppableId)), t ∈ loadedTasks (cache d.droppableId) := by
      intro t ht
      split_ifs at ht
      · exact (List.mem_filter.mp ht).1
      · exact ht
    have horigin : ∀ t ∈ loadedTasks (c2 d.droppableId),
        t ∈ loadedTasks (cache d.droppableId) ∨
        ∃ moved ∈ loadedTasks (cache r.source.droppableId), moved.id = r.draggableId ∧
          t = { moved with column := d.droppableId } := by
      intro t ht
      rcases hA with h0 | h1
      · rw [h0] at ht
        simp at ht
      · rw [h1, List.mem_append, List.mem_append, List.mem_singleton] at ht
        rcases ht with (ht | ht) | ht
        · exact Or.inl (hbefore t (List.mem_of_mem_take ht))
        · exact Or.inr ⟨moved, hm, hid, ht⟩
        · exact Or.inl (hbefore t (List.mem_of_mem_drop ht))
    have hdest : ∀ t ∈ loadedTasks (c2 d.droppableId), t.column = d.droppableId := by
      intro t ht
      rcases horigin t ht with h1 | ⟨m, _, _, rfl⟩
      · exact hdst d hd t h1
      · rfl
    constructor
    · by_cases hsd : r.source.droppableId = d.droppableId
      · rw [hsd]
        exact hdest
      · rw [hB hsd]
        intro t ht
        exact hs t (List.mem_filter.mp ht).1
    · intro d1 hd1
      rw [hd] at hd1
      cases hd1
      exact ⟨hdest, horigin⟩

/-- Witness of C13: task 1 dragged from the backlog to the review column, where
it arrives with the column `review` and its title and description kept. -/
theorem onDragEnd_column_membership_witness :
    (∀ t ∈ loadedTasks ((onDragEnd sampleCache dragToReview).1 "backlog"),
      t.column = "backlog") ∧
    (∀ t ∈ loadedTasks ((onDragEnd sampleCache dragToReview).1 "review"),
      t.column = "review") ∧
    loadedTasks ((onDragEnd sampleCache dragToReview).1 "review") =
      [⟨"1", some "Sample task 1", some "First task", "review"⟩] := by
  have h := onDragEnd_column_membership sampleCache dragToReview (by decide)
    (fun d hd => by cases Option.some.inj hd; decide)
  exact ⟨h.1, (h.2 ⟨"review", 0⟩ rfl).1, by decide⟩

/-- For a search without white space at its ends, the highlight condition of a
card shown in a column agrees with the filter of the search effect. -/
theorem highlighted_eq_searchFilter_of_trimmed (search colId : String) (t : Task)
    (htrim : trim search = search) (hne : trim search ≠ "") (hcol : t.column = colId) :
    highlighted search t = searchFilter (toLowerCase (trim search)) colId t := by
  rw [htrim] at hne
  have ht : truthy search = true := (truthy_iff _).mpr hne
  simp [highlighted, searchFilter, ht, htrim, hcol]

/-- C14 fails on the code: for the search `"task 1 "`, whose trimmed form is not
empty, sample task 1 is shown in the backlog and counted as a match of the
backlog, yet its card is not highlighted: the highlight condition tests
`search.toLowerCase()` without trimming it. -/
theorem highlighted_misses_counted_match :
    trim "task 1 " ≠ "" ∧
    (⟨"1", some "Sample task 1", some "First task", "backlog"⟩ : Task) ∈
      items "task 1 " searchCache 0 ⟨"backlog", "Backlog"⟩ ∧
    searchFilter (toLowerCase (trim "task 1 ")) "backlog"
      ⟨"1", some "Sample task 1", some "First task", "backlog"⟩ = true ∧
    computeSearchResults "task 1 " searchCache =
      ⟨1, [("backlog", 1), ("in_progress", 0), ("review", 0), ("done", 0)]⟩ ∧
    highlighted "task 1 " ⟨"1", some "Sample task 1", some "First task", "backlog"⟩ = false := by
  decide

end KanbanBoard
